import Mathlib

/-!
Shallow embedding of the enrichment-and-retention engine of the
`Week_12_ElasticSearch_Malicious_Text` repository (`src/processor.py`,
`src/Elastic_service/DAL.py`), together with theorems settling the
behavioural claims about it.

Conventions of the embedding:
* Python `float` scores are modelled by `ℚ`; the thresholds `0.05` and
  `-0.05` compare the same way on the values the code ever compares.
* Fallible calls to the document store are modelled by explicit outcome
  parameters; a Python function that swallows exceptions and returns is a
  total Lean function.
* `str.strip` / `str.lower` are modelled on the character range the data
  uses by `pyStrip` / `pyLower`.
* Store queries are embedded as an explicit `Query` AST mirroring the
  JSON bodies built in the source, with an evaluator `evalQuery` giving
  the Elasticsearch semantics of the clauses the code uses.
-/

/-! ### Python string primitives -/

/-- Python whitespace for `str.strip` (ASCII range, which is what the data
and vocabulary files contain). -/
def isPySpace (c : Char) : Bool :=
  c = ' ' || c = '\t' || c = '\n' || c = '\r' || c = '\x0b' || c = '\x0c'

/-- Model of Python `str.strip()`: drop whitespace from both ends. -/
def pyStrip (s : String) : String :=
  ⟨((s.data.dropWhile isPySpace).reverse.dropWhile isPySpace).reverse⟩

/-- Model of Python `str.lower()` (ASCII case mapping). -/
def pyLower (s : String) : String :=
  ⟨s.data.map Char.toLower⟩

/-! ### `Enriche._load_weapons` (processor.py lines 39-51) -/

/-- Severity of the single diagnostic a loader call emits. -/
inductive LogLevel where
  | info | warning | error
deriving DecidableEq

/-- Outcome of `open(file_path).read` as seen by `_load_weapons`:
the file's physical lines, a `FileNotFoundError`, or any other exception. -/
inductive ReadResult where
  | ok (lines : List String)
  | fileNotFound
  | otherError (msg : String)

/-- Model of `Enriche._load_weapons`: `[line.strip().lower() for line in f if line.strip()]`
on success; `except FileNotFoundError` logs a warning and returns `[]`;
`except Exception` logs an error and returns `[]`.  Total: never raises. -/
def load_weapons : ReadResult → List String × LogLevel
  | .ok lines =>
      ((lines.filter (fun l => pyStrip l ≠ "")).map (fun l => pyLower (pyStrip l)),
        .info)
  | .fileNotFound => ([], .warning)
  | .otherError _ => ([], .error)

/-! ### `Enriche._get_sentiment_score` / `_get_sentiment_label`
(processor.py lines 73-85) -/

/-- A Python value passed as `text`: a string, or anything that is not a
string (`isinstance(text, str)` is false). -/
inductive PyVal where
  | str (s : String)
  | nonString

/-- Model of `Enriche._get_sentiment_score`, parameterised by the external VADER
analyzer `polarity` (`SentimentIntensityAnalyzer.polarity_scores(..)['compound']`):
non-strings and strings with falsy `text.strip()` score `0.0`. -/
def get_sentiment_score (polarity : String → ℚ) : PyVal → ℚ
  | .nonString => 0
  | .str s => if pyStrip s = "" then 0 else polarity s

/-- Model of `Enriche._get_sentiment_label`: `>= 0.05 → "positive"`,
`<= -0.05 → "negative"`, else `"neutral"`. -/
def get_sentiment_label (score : ℚ) : String :=
  if score ≥ 0.05 then "positive"
  else if score ≤ -0.05 then "negative"
  else "neutral"

/-! ### Theorems: sentiment labelling (C4) and scoring guard (C9) -/

/-- C4: for every compound score `s`, the labeling function returns
`"positive"` iff `s ≥ 0.05`, `"negative"` iff `s ≤ -0.05`, `"neutral"`
otherwise, both boundaries inclusive; in particular `0.05 ↦ positive`,
`-0.05 ↦ negative`, `0 ↦ neutral`, `-0.0499 ↦ neutral`. -/
theorem sentiment_label_thresholds :
    (∀ s : ℚ,
      (get_sentiment_label s = "positive" ↔ 0.05 ≤ s) ∧
      (get_sentiment_label s = "negative" ↔ s ≤ -0.05) ∧
      (get_sentiment_label s = "neutral" ↔ -0.05 < s ∧ s < 0.05)) ∧
    get_sentiment_label 0.05 = "positive" ∧
    get_sentiment_label (-0.05) = "negative" ∧
    get_sentiment_label 0 = "neutral" ∧
    get_sentiment_label (-0.0499) = "neutral" := by
  refine ⟨fun s => ?_, ?_, ?_, ?_, ?_⟩
  · unfold get_sentiment_label
    by_cases h1 : s ≥ (0.05 : ℚ)
    · rw [if_pos h1]
      exact ⟨⟨fun _ => h1, fun _ => rfl⟩,
        ⟨fun h => absurd h (by decide),
         fun hle => absurd (le_trans h1 hle) (by norm_num)⟩,
        ⟨fun h => absurd h (by decide),
         fun hc => absurd h1 (not_le.mpr hc.2)⟩⟩
    · rw [if_neg h1]
      by_cases h2 : s ≤ (-0.05 : ℚ)
      · rw [if_pos h2]
        exact ⟨⟨fun h => absurd h (by decide), fun hge => absurd hge h1⟩,
          ⟨fun _ => h2, fun _ => rfl⟩,
          ⟨fun h => absurd h (by decide),
           fun hc => absurd h2 (not_le.mpr hc.1)⟩⟩
      · rw [if_neg h2]
        exact ⟨⟨fun h => absurd h (by decide), fun hge => absurd hge h1⟩,
          ⟨fun h => absurd h (by decide), fun hle => absurd hle h2⟩,
          ⟨fun _ => ⟨not_le.mp h2, not_le.mp h1⟩, fun _ => rfl⟩⟩
  · unfold get_sentiment_label; norm_num
  · unfold get_sentiment_label; norm_num
  · unfold get_sentiment_label; norm_num
  · unfold get_sentiment_label; norm_num

/-- C9: the scorer never errors; non-string and blank inputs score exactly
`0` (hence label `"neutral"`), and whenever the external analyzer respects
its documented range `[-1, 1]`, every string input scores in `[-1, 1]`. -/
theorem sentiment_score_guard (polarity : String → ℚ)
    (h : ∀ s, -1 ≤ polarity s ∧ polarity s ≤ 1) :
    get_sentiment_score polarity .nonString = 0 ∧
    get_sentiment_label (get_sentiment_score polarity .nonString) = "neutral" ∧
    (∀ s, pyStrip s = "" →
      get_sentiment_score polarity (.str s) = 0 ∧
      get_sentiment_label (get_sentiment_score polarity (.str s)) = "neutral") ∧
    (∀ s, -1 ≤ get_sentiment_score polarity (.str s) ∧
      get_sentiment_score polarity (.str s) ≤ 1) := by
  have hzero : get_sentiment_label 0 = "neutral" := by
    unfold get_sentiment_label; norm_num
  refine ⟨rfl, hzero, fun s hs => ?_, fun s => ?_⟩
  · have : get_sentiment_score polarity (.str s) = 0 := by
      simp only [get_sentiment_score]
      rw [if_pos hs]
    exact ⟨this, this ▸ hzero⟩
  · simp only [get_sentiment_score]
    by_cases hb : pyStrip s = ""
    · rw [if_pos hb]; norm_num
    · rw [if_neg hb]; exact h s

/-- Witness for `sentiment_score_guard` at the constant-zero analyzer. -/
theorem sentiment_score_guard_witness :
    get_sentiment_score (fun _ => 0) .nonString = 0 ∧
    get_sentiment_label (get_sentiment_score (fun _ => 0) .nonString) = "neutral" ∧
    (∀ s, pyStrip s = "" →
      get_sentiment_score (fun _ => 0) (.str s) = 0 ∧
      get_sentiment_label (get_sentiment_score (fun _ => 0) (.str s)) = "neutral") ∧
    (∀ s, -1 ≤ get_sentiment_score (fun _ => 0) (.str s) ∧
      get_sentiment_score (fun _ => 0) (.str s) ≤ 1) :=
  sentiment_score_guard (fun _ => 0) (fun _ => by norm_num)

/-! ### Theorems: vocabulary loader (C7) -/

/-- C7 counterexample: a read failure other than a missing file yields the
empty vocabulary with an error-level diagnostic, not a warning, so the
claim's "any other read failure yields the empty sequence with a warning"
is false as stated. -/
theorem load_weapons_other_failure_not_warning :
    load_weapons (.otherError "disk failure") = ([], .error) ∧
    LogLevel.error ≠ LogLevel.warning :=
  ⟨rfl, by decide⟩

/-- C7 (amended): the loader is total (never raises to the caller): a
missing file yields the empty sequence with a non-fatal warning, any other
read failure yields the empty sequence with an error-level diagnostic, and
a readable file yields its non-empty lines as whitespace-trimmed lowercase
strings in file order. -/
theorem load_weapons_total :
    (∀ msg, load_weapons (.otherError msg) = ([], .error)) ∧
    load_weapons .fileNotFound = ([], .warning) ∧
    (∀ lines, load_weapons (.ok lines) =
      ((lines.filter (fun l => pyStrip l ≠ "")).map (fun l => pyLower (pyStrip l)),
        .info)) :=
  ⟨fun _ => rfl, rfl, fun _ => rfl⟩

/-! ### Corpus records and the query AST -/

/-- One stored corpus document, with the fields the engine reads or
writes.  `antisemitic` models the stored field `"Antisemitic"`;
`weapons_found` is a set of canonical terms (the store keeps an array,
the code writes `list(set)`), `none` when the field was never written. -/
structure Record where
  id : Nat
  text : Option String
  antisemitic : Option Int
  sentiment_score : Option ℚ
  sentiment_label : Option String
  weapons_found : Option (Finset String)
deriving DecidableEq

/-- The corpus, in store order. -/
abbrev Store := List Record

/-- Elasticsearch `exists` on `weapons_found`: an absent field or an
empty array both count as non-existing. -/
def weaponsExists (r : Record) : Bool :=
  match r.weapons_found with
  | some ws => decide (ws ≠ ∅)
  | none => false

/-- The query bodies the source builds, as an AST: `term` on an integer
field, `term` on a keyword field, `exists`, `match_phrase`, and `bool`
with `must` / `should` / `minimum_should_match` / `must_not`. -/
inductive Query where
  | term_int (field : String) (value : Int)
  | term_str (field : String) (value : String)
  | exists_field (field : String)
  | match_phrase (field : String) (value : String)
  | bool_query (must : List Query) (should : List Query)
      (minimum_should_match : Option Nat) (must_not : List Query)

mutual

/-- Elasticsearch evaluation of a query against one record.  `pm t v`
decides whether stored text `t` phrase-matches term `v` (the analyzer is
external, so phrase matching is a parameter).  A `bool` query holds when
all `must` clauses hold, no `must_not` clause holds, and at least
`minimum_should_match` of the `should` clauses hold; the default minimum
is 1 when `should` clauses are present without `must` clauses, else 0. -/
def evalQuery (pm : String → String → Bool) (r : Record) : Query → Bool
  | .term_int f v =>
      match f with
      | "Antisemitic" => r.antisemitic = some v
      | _ => false
  | .term_str f v =>
      match f with
      | "sentiment_label" => r.sentiment_label = some v
      | _ => false
  | .exists_field f =>
      match f with
      | "text" => r.text.isSome
      | "sentiment_label" => r.sentiment_label.isSome
      | "sentiment_score" => r.sentiment_score.isSome
      | "Antisemitic" => r.antisemitic.isSome
      | "weapons_found" => weaponsExists r
      | _ => false
  | .match_phrase f v =>
      match f with
      | "text" => (match r.text with | some t => pm t v | none => false)
      | _ => false
  | .bool_query must should msm mustNot =>
      evalAllOf pm r must && evalNoneOf pm r mustNot &&
        (msm.getD (if should.isEmpty then 0 else if must.isEmpty then 1 else 0)
          ≤ evalCountOf pm r should)

/-- All queries in the list hold. -/
def evalAllOf (pm : String → String → Bool) (r : Record) : List Query → Bool
  | [] => true
  | q :: qs => evalQuery pm r q && evalAllOf pm r qs

/-- No query in the list holds. -/
def evalNoneOf (pm : String → String → Bool) (r : Record) : List Query → Bool
  | [] => true
  | q :: qs => !evalQuery pm r q && evalNoneOf pm r qs

/-- How many queries in the list hold. -/
def evalCountOf (pm : String → String → Bool) (r : Record) : List Query → Nat
  | [] => 0
  | q :: qs => (if evalQuery pm r q then 1 else 0) + evalCountOf pm r qs

end

/-! ### The query bodies built in `processor.py` -/

/-- Selection body of `Enriche.add_sentiment_to_docs` (processor.py
lines 173-181): `text` exists and `sentiment_label` does not
("Avoid reprocessing"). -/
def sentiment_selection_query : Query :=
  .bool_query [.exists_field "text"] [] none [.exists_field "sentiment_label"]

/-- The spec's §6 "Incremental sentiment selection" shape, written from its
words, for the bit-exactness comparison. -/
def spec_incremental_sentiment_query : Query :=
  .bool_query [.exists_field "text"] [] none [.exists_field "sentiment_label"]

/-- Selection body of `Enriche.add_weapons_to_docs` (processor.py lines
108-114): a `should` of one `match_phrase` per vocabulary term with
`minimum_should_match` 1. -/
def weapons_selection_query (weapons_list : List String) : Query :=
  .bool_query [] (weapons_list.map (fun w => .match_phrase "text" w)) (some 1) []

/-- The `full_query` built in `Enriche.clean_non_antisemitic` (processor.py
lines 307-325).  Note the flag field is spelled `"Antisemitic"` in the
source. -/
def retention_full_query : Query :=
  .bool_query
    [ .term_int "Antisemitic" 0,
      .bool_query []
        [ .term_str "sentiment_label" "positive",
          .term_str "sentiment_label" "neutral" ]
        (some 1) [] ]
    [] none
    [ .exists_field "weapons_found" ]

/-- The unused draft `query` local of `Enriche.clean_non_antisemitic`
(processor.py lines 293-303); built and then shadowed by `full_query`. -/
def retention_draft_query : Query :=
  .bool_query
    [ .term_int "Antisemitic" 0, .term_str "sentiment_label" "positive" ]
    [] none
    [ .exists_field "weapons_found" ]

/-- The spec's §6 "Retention predicate", verbatim from its words: the flag
field is spelled `antisemitic_flag` there. -/
def spec_retention_query : Query :=
  .bool_query
    [ .term_int "antisemitic_flag" 0,
      .bool_query []
        [ .term_str "sentiment_label" "positive",
          .term_str "sentiment_label" "neutral" ]
        (some 1) [] ]
    [] none
    [ .exists_field "weapons_found" ]

/-- The spec's §6 retention predicate with the flag field renamed to the spelling
the source actually uses (`"Antisemitic"`); the shape is otherwise the
spec's. -/
def spec_retention_query_amended : Query :=
  .bool_query
    [ .term_int "Antisemitic" 0,
      .bool_query []
        [ .term_str "sentiment_label" "positive",
          .term_str "sentiment_label" "neutral" ]
        (some 1) [] ]
    [] none
    [ .exists_field "weapons_found" ]

/-- Field of the first `must` clause when it is an integer `term`. -/
def firstMustTermField : Query → Option String
  | .bool_query (Query.term_int f _ :: _) _ _ _ => some f
  | _ => none

/-! ### Theorems: the retention predicate (C2) -/

/-- C2 counterexample: the delete-by-query predicate the source builds is
not bit-exact the §6 shape — the source's `term` clause is on the field
`"Antisemitic"` while §6 spells it `antisemitic_flag`. -/
theorem retention_query_not_spec_shape :
    retention_full_query ≠ spec_retention_query := by
  intro h
  have h2 := congrArg firstMustTermField h
  simp only [retention_full_query, spec_retention_query, firstMustTermField,
    Option.some.injEq] at h2
  exact absurd h2 (by decide)

/-- C2 (amended): the retention predicate equals the §6 shape with the
flag field spelled `"Antisemitic"` (as stored), and a record satisfies it
iff its flag is 0, its sentiment label is positive or neutral, and
`weapons_found` is absent or empty. -/
theorem retention_query_corrected :
    retention_full_query = spec_retention_query_amended ∧
    (∀ (pm : String → String → Bool) (r : Record),
      evalQuery pm r retention_full_query = true ↔
        (r.antisemitic = some 0 ∧
         (r.sentiment_label = some "positive" ∨ r.sentiment_label = some "neutral") ∧
         weaponsExists r = false)) := by
  refine ⟨rfl, fun pm r => ?_⟩
  simp only [retention_full_query, evalQuery, evalAllOf, evalNoneOf, evalCountOf,
    List.isEmpty, Option.getD, Bool.and_eq_true, Bool.not_eq_true']
  simp only [decide_eq_true_eq, true_and, and_true]
  by_cases hp : r.sentiment_label = some "positive" <;>
    by_cases hq : r.sentiment_label = some "neutral" <;>
      simp [hp, hq]

/-- The sentiment selection evaluates to: `text` exists and
`sentiment_label` does not, for every phrase matcher. -/
theorem evalQuery_sentiment_selection (pm : String → String → Bool) (r : Record) :
    evalQuery pm r sentiment_selection_query =
      (r.text.isSome && !r.sentiment_label.isSome) := by
  simp only [sentiment_selection_query, evalQuery, evalAllOf, evalNoneOf,
    evalCountOf, List.isEmpty, Option.getD]
  cases hr : r.text.isSome <;> cases hl : r.sentiment_label.isSome <;> simp

/-! ### `elasticsearch.helpers.bulk` with `raise_on_error=False`
(called at processor.py lines 156-158 and 218-220) -/

/-- Split a list into consecutive chunks of `n` elements (the final chunk
may be shorter).  The fuel argument of `chunksOfAux` only drives structural
termination; `chunksOf` supplies enough fuel for the whole list, so it is
never exhausted when the chunk size is positive. -/
def chunksOfAux {α : Type} (n : Nat) : Nat → List α → List (List α)
  | _, [] => []
  | 0, l => [l]
  | fuel + 1, a :: as =>
      if n = 0 then [a :: as]
      else (a :: as).take n :: chunksOfAux n fuel ((a :: as).drop n)

/-- Split a list into consecutive chunks of `n` elements (the final chunk
may be shorter). -/
def chunksOf {α : Type} (n : Nat) (l : List α) : List (List α) :=
  chunksOfAux n l.length l

/-- Model of `helpers.bulk(es, actions, chunk_size=.., raise_on_error=False)`,
with the store's per-operation outcome abstracted as `ok`: actions are
submitted chunk by chunk; every chunk is submitted regardless of failures
in earlier chunks, successes are counted, failed operations collected,
and nothing raises. -/
def helpers_bulk {α : Type} (ok : α → Bool) (chunk_size : Nat)
    (actions : List α) : Nat × List α :=
  (chunksOf chunk_size actions).foldl
    (fun acc chunk =>
      (acc.1 + (chunk.filter ok).length, acc.2 ++ chunk.filter (fun a => !ok a)))
    (0, [])

theorem chunksOfAux_flatten {α : Type} (n fuel : Nat) (l : List α)
    (h : l.length ≤ fuel) : (chunksOfAux n fuel l).flatten = l := by
  induction fuel generalizing l with
  | zero =>
      cases l with
      | nil => rfl
      | cons a as => simp at h
  | succ fuel ih =>
      cases l with
      | nil => rfl
      | cons a as =>
          rw [chunksOfAux]
          by_cases hn : n = 0
          · simp [hn]
          · rw [if_neg hn]
            simp only [List.flatten_cons]
            rw [ih ((a :: as).drop n) ?_, List.take_append_drop]
            simp only [List.length_drop, List.length_cons]
            simp only [List.length_cons] at h
            omega

theorem chunksOf_flatten {α : Type} (n : Nat) (l : List α) :
    (chunksOf n l).flatten = l :=
  chunksOfAux_flatten n l.length l le_rfl

theorem chunksOfAux_length_le {α : Type} (n : Nat) (hn : n ≠ 0) (fuel : Nat)
    (l : List α) (h : l.length ≤ fuel) :
    ∀ c ∈ chunksOfAux n fuel l, c.length ≤ n := by
  induction fuel generalizing l with
  | zero =>
      cases l with
      | nil => intro c hc; exact absurd hc (List.not_mem_nil c)
      | cons a as => simp at h
  | succ fuel ih =>
      cases l with
      | nil => intro c hc; exact absurd hc (List.not_mem_nil c)
      | cons a as =>
          rw [chunksOfAux, if_neg hn]
          intro c hc
          rcases List.mem_cons.mp hc with hc | hc
          · subst hc
            exact le_of_eq_of_le rfl (List.length_take_le n (a :: as))
          · refine ih ((a :: as).drop n) ?_ c hc
            simp only [List.length_drop, List.length_cons]
            simp only [List.length_cons] at h
            omega

theorem chunksOf_length_le {α : Type} (n : Nat) (hn : n ≠ 0) (l : List α) :
    ∀ c ∈ chunksOf n l, c.length ≤ n :=
  chunksOfAux_length_le n hn l.length l le_rfl

theorem chunksOfAux_ne_nil {α : Type} (n fuel : Nat) (l : List α) (h : l ≠ []) :
    chunksOfAux n fuel l ≠ [] := by
  cases l with
  | nil => exact absurd rfl h
  | cons a as =>
      cases fuel with
      | zero => simp [chunksOfAux]
      | succ fuel =>
          rw [chunksOfAux]
          by_cases hn : n = 0 <;> simp [hn]

theorem chunksOfAux_dropLast_length {α : Type} (n : Nat) (hn : n ≠ 0)
    (fuel : Nat) (l : List α) (h : l.length ≤ fuel) :
    ∀ c ∈ (chunksOfAux n fuel l).dropLast, c.length = n := by
  induction fuel generalizing l with
  | zero =>
      cases l with
      | nil => intro c hc; exact absurd hc (List.not_mem_nil c)
      | cons a as => simp at h
  | succ fuel ih =>
      cases l with
      | nil => intro c hc; exact absurd hc (List.not_mem_nil c)
      | cons a as =>
          rw [chunksOfAux, if_neg hn]
          by_cases hd : (a :: as).drop n = []
          · have hnil : chunksOfAux n fuel ((a :: as).drop n) = [] := by
              rw [hd]
              cases fuel <;> rfl
            rw [hnil]
            intro c hc
            exact absurd hc (List.not_mem_nil c)
          · rw [List.dropLast_cons_of_ne_nil (chunksOfAux_ne_nil n fuel _ hd)]
            intro c hc
            rcases List.mem_cons.mp hc with hc | hc
            · subst hc
              have hlen : n ≤ (a :: as).length := by
                by_contra hlt
                push_neg at hlt
                exact hd (List.drop_eq_nil_of_le (le_of_lt hlt))
              simp only [List.length_take, List.length_cons]
              simp only [List.length_cons] at hlen
              omega
            · refine ih ((a :: as).drop n) ?_ c hc
              simp only [List.length_drop, List.length_cons]
              simp only [List.length_cons] at h
              omega

theorem chunksOf_dropLast_length {α : Type} (n : Nat) (hn : n ≠ 0) (l : List α) :
    ∀ c ∈ (chunksOf n l).dropLast, c.length = n :=
  chunksOfAux_dropLast_length n hn l.length l le_rfl

theorem helpers_bulk_foldl {α : Type} (ok : α → Bool) (cs : List (List α))
    (n0 : Nat) (f0 : List α) :
    cs.foldl
      (fun acc chunk =>
        (acc.1 + (chunk.filter ok).length, acc.2 ++ chunk.filter (fun a => !ok a)))
      (n0, f0) =
    (n0 + (cs.flatten.filter ok).length, f0 ++ cs.flatten.filter (fun a => !ok a)) := by
  induction cs generalizing n0 f0 with
  | nil => simp
  | cons c cs ih =>
      simp only [List.foldl_cons, List.flatten_cons, List.filter_append, ih,
        List.length_append, List.append_assoc, Nat.add_assoc]

theorem helpers_bulk_eq {α : Type} (ok : α → Bool) (n : Nat) (actions : List α) :
    helpers_bulk ok n actions =
      ((actions.filter ok).length, actions.filter (fun a => !ok a)) := by
  unfold helpers_bulk
  rw [helpers_bulk_foldl, chunksOf_flatten]
  simp

/-! ### Theorems: bulk chunking and partial-failure isolation (C6) -/

set_option maxRecDepth 8000 in
/-- C6: bulk updates are submitted in chunks of 500 operations covering the
action list (all but the last chunk exactly 500, none larger); failed
operations are collected and counted but every chunk is still submitted, so
the summary success count is the number of succeeding operations over the
whole pass and nothing raises.  Concretely, 10 updates with 1 failing yield
success count 9 with one recorded failure, and with 510 updates the second
chunk still executes after a failure in the first. -/
theorem bulk_chunks_of_500_isolate_failures :
    (∀ (α : Type) (ok : α → Bool) (actions : List α),
      (chunksOf 500 actions).flatten = actions ∧
      (∀ c ∈ (chunksOf 500 actions).dropLast, c.length = 500) ∧
      (∀ c ∈ chunksOf 500 actions, c.length ≤ 500) ∧
      helpers_bulk ok 500 actions =
        ((actions.filter ok).length, actions.filter (fun a => !ok a))) ∧
    helpers_bulk (fun a => decide (a ≠ 3)) 500 (List.range 10) = (9, [3]) ∧
    helpers_bulk (fun a => decide (a ≠ 3)) 500 (List.range 510) = (509, [3]) ∧
    (chunksOf 500 (List.range 510)).length = 2 := by
  refine ⟨fun α ok actions => ⟨chunksOf_flatten 500 actions,
      chunksOf_dropLast_length 500 (by omega) actions,
      chunksOf_length_le 500 (by omega) actions,
      helpers_bulk_eq ok 500 actions⟩, ?_, ?_, ?_⟩
  · rw [helpers_bulk_eq]
    rfl
  · rw [helpers_bulk_eq]
    decide
  · decide

/-! ### `Enriche.add_sentiment_to_docs` (processor.py lines 169-225) -/

/-- One bulk `update` action of the sentiment pass: the target id and the
partial document `{"sentiment_score": .., "sentiment_label": ..}`. -/
structure SentUpdate where
  id : Nat
  sentiment_score : ℚ
  sentiment_label : String
deriving DecidableEq

/-- Field-level merge of one sentiment partial update into a record. -/
def sentApply (u : SentUpdate) (r : Record) : Record :=
  { r with sentiment_score := some u.sentiment_score,
           sentiment_label := some u.sentiment_label }

/-- One store-side bulk step: an operation touches exactly the record with
its target id. -/
def sentStep (r : Record) (u : SentUpdate) : Record :=
  if u.id = r.id then sentApply u r else r

/-- Store-side effect of the bulk submission: every successful operation is
applied, in submission order, to the record with its id. -/
def applySentUpdates (ok : SentUpdate → Bool) (upds : List SentUpdate)
    (store : Store) : Store :=
  store.map (fun r => (upds.filter ok).foldl sentStep r)

/-- The `docs_to_update` list of the sentiment pass: scan the selection
query, skip hits whose `text` is falsy, and pair each remaining id with its
score and label. -/
def sentiment_docs_to_update (polarity : String → ℚ)
    (pm : String → String → Bool) (store : Store) : List SentUpdate :=
  (store.filter (fun r => evalQuery pm r sentiment_selection_query)).filterMap
    (fun r =>
      match r.text with
      | some t =>
          if t = "" then none
          else some ⟨r.id, get_sentiment_score polarity (.str t),
            get_sentiment_label (get_sentiment_score polarity (.str t))⟩
      | none => none)

/-- Result of one enrichment pass over the store. -/
structure PassOut where
  store : Store
  success : Nat
  failedCount : Nat
deriving DecidableEq

/-- Model of `Enriche.add_sentiment_to_docs`: select with the incremental query,
score and label each truthy `text`, return early when nothing needs an
update, otherwise bulk-update in chunks of 500 with
`raise_on_error=False`.  `polarity` is the external analyzer, `pm` the
store's phrase matcher, `ok` the store's per-operation bulk outcome. -/
def add_sentiment_to_docs (polarity : String → ℚ)
    (pm : String → String → Bool) (ok : SentUpdate → Bool)
    (store : Store) : PassOut :=
  let docs_to_update := sentiment_docs_to_update polarity pm store
  if docs_to_update = [] then ⟨store, 0, 0⟩
  else
    let res := helpers_bulk ok 500 docs_to_update
    ⟨applySentUpdates ok docs_to_update store, res.1, res.2.length⟩

theorem foldl_sentStep_label_isSome (ops : List SentUpdate) (r : Record)
    (h : r.sentiment_label.isSome = true) :
    ((ops.foldl sentStep r).sentiment_label).isSome = true := by
  induction ops generalizing r with
  | nil => exact h
  | cons u ops ih =>
      simp only [List.foldl_cons, sentStep]
      by_cases hu : u.id = r.id
      · rw [if_pos hu]
        exact ih (sentApply u r) (by simp [sentApply])
      · rw [if_neg hu]
        exact ih r h

theorem foldl_sentStep_label_of_mem (ops : List SentUpdate) (r : Record)
    (h : ∃ u ∈ ops, u.id = r.id) :
    ((ops.foldl sentStep r).sentiment_label).isSome = true := by
  induction ops generalizing r with
  | nil =>
      rcases h with ⟨u, hu, -⟩
      exact absurd hu (List.not_mem_nil u)
  | cons v ops ih =>
      simp only [List.foldl_cons, sentStep]
      by_cases hv : v.id = r.id
      · rw [if_pos hv]
        exact foldl_sentStep_label_isSome ops (sentApply v r) (by simp [sentApply])
      · rw [if_neg hv]
        rcases h with ⟨u, hu, huid⟩
        rcases List.mem_cons.mp hu with rfl | hu2
        · exact absurd huid hv
        · exact ih r ⟨u, hu2, huid⟩

theorem foldl_sentStep_eq_or (ops : List SentUpdate) (r : Record) :
    ops.foldl sentStep r = r ∨
      ((ops.foldl sentStep r).sentiment_label).isSome = true := by
  induction ops generalizing r with
  | nil => exact Or.inl rfl
  | cons u ops ih =>
      simp only [List.foldl_cons, sentStep]
      by_cases hu : u.id = r.id
      · rw [if_pos hu]
        exact Or.inr (foldl_sentStep_label_isSome ops (sentApply u r)
          (by simp [sentApply]))
      · rw [if_neg hu]
        exact ih r

theorem filterMap_nil_of_none {α β : Type} (f : α → Option β) (l : List α)
    (h : ∀ a ∈ l, f a = none) : l.filterMap f = [] := by
  induction l with
  | nil => rfl
  | cons a as ih =>
      rw [List.filterMap_cons, h a (List.mem_cons_self a as)]
      exact ih (fun x hx => h x (List.mem_cons_of_mem a hx))

theorem sentiment_docs_second_run_nil (polarity : String → ℚ)
    (pm pm2 : String → String → Bool) (ok : SentUpdate → Bool)
    (h : ∀ u, ok u = true) (store : Store) :
    sentiment_docs_to_update polarity pm2
      (add_sentiment_to_docs polarity pm ok store).store = [] := by
  have hmem : ∀ r ∈ store, evalQuery pm r sentiment_selection_query = true →
      ∀ t, r.text = some t → t ≠ "" →
        ∃ u ∈ sentiment_docs_to_update polarity pm store, u.id = r.id := by
    intro r hr hsel t ht hne
    refine ⟨⟨r.id, get_sentiment_score polarity (.str t),
      get_sentiment_label (get_sentiment_score polarity (.str t))⟩, ?_, rfl⟩
    apply List.mem_filterMap.mpr
    refine ⟨r, List.mem_filter.mpr ⟨hr, hsel⟩, ?_⟩
    rw [ht]
    simp [hne]
  rw [sentiment_docs_to_update]
  apply filterMap_nil_of_none
  intro r' hr'
  obtain ⟨hr'mem, hr'sel⟩ := List.mem_filter.mp hr'
  rw [evalQuery_sentiment_selection] at hr'sel
  obtain ⟨htext, hlabne⟩ := Bool.and_eq_true_iff.mp hr'sel
  have hlab : r'.sentiment_label.isSome = false := by
    cases hv : r'.sentiment_label.isSome
    · rfl
    · rw [hv] at hlabne; exact absurd hlabne (by decide)
  cases ht : r'.text with
  | none => rfl
  | some t =>
      by_cases hte : t = ""
      · simp [hte]
      · exfalso
        have hselpm : evalQuery pm r' sentiment_selection_query = true := by
          rw [evalQuery_sentiment_selection, htext]
          cases hv : r'.sentiment_label.isSome
          · rfl
          · rw [hv] at hlab; exact absurd hlab (by decide)
        by_cases hd1 : sentiment_docs_to_update polarity pm store = []
        · have hs1 : (add_sentiment_to_docs polarity pm ok store).store = store := by
            rw [add_sentiment_to_docs]
            simp [hd1]
          rw [hs1] at hr'mem
          obtain ⟨u, hu, -⟩ := hmem r' hr'mem hselpm t ht hte
          rw [hd1] at hu
          exact List.not_mem_nil u hu
        · have hs1 : (add_sentiment_to_docs polarity pm ok store).store =
              applySentUpdates ok (sentiment_docs_to_update polarity pm store) store := by
            rw [add_sentiment_to_docs]
            simp [hd1]
          rw [hs1] at hr'mem
          obtain ⟨r, hrmem, hrfold⟩ := List.mem_map.mp hr'mem
          have hfilter : (sentiment_docs_to_update polarity pm store).filter ok =
              sentiment_docs_to_update polarity pm store :=
            List.filter_eq_self.mpr (fun u _ => h u)
          rw [hfilter] at hrfold
          rcases foldl_sentStep_eq_or (sentiment_docs_to_update polarity pm store) r
            with heq | hsome
          · rw [heq] at hrfold
            subst hrfold
            obtain ⟨u, hu, huid⟩ := hmem r hrmem hselpm t ht hte
            have hisome := foldl_sentStep_label_of_mem
              (sentiment_docs_to_update polarity pm store) r ⟨u, hu, huid⟩
            rw [heq] at hisome
            rw [hisome] at hlab
            exact absurd hlab (by decide)
          · rw [hrfold] at hsome
            rw [hsome] at hlab
            exact absurd hlab (by decide)

/-! ### Theorems: sentiment pass idempotence (C3) -/

/-- C3: the sentiment pass selects with exactly the §6 incremental query
(`text` exists, `sentiment_label` does not), so when the first run's bulk
writes all succeed, a second run over the unchanged corpus prepares no
update at all: it updates 0 records and leaves the store as the first run
left it. -/
theorem sentiment_pass_second_run_updates_nothing (polarity : String → ℚ)
    (pm pm2 : String → String → Bool) (ok ok2 : SentUpdate → Bool)
    (store : Store) (h : ∀ u, ok u = true) :
    sentiment_selection_query = spec_incremental_sentiment_query ∧
    (∀ (pm' : String → String → Bool) (r : Record),
      evalQuery pm' r sentiment_selection_query =
        (r.text.isSome && !r.sentiment_label.isSome)) ∧
    add_sentiment_to_docs polarity pm2 ok2
        (add_sentiment_to_docs polarity pm ok store).store =
      ⟨(add_sentiment_to_docs polarity pm ok store).store, 0, 0⟩ := by
  refine ⟨rfl, evalQuery_sentiment_selection, ?_⟩
  rw [add_sentiment_to_docs]
  simp [sentiment_docs_second_run_nil polarity pm pm2 ok h store]

/-- Witness for `sentiment_pass_second_run_updates_nothing` on a concrete
one-record corpus with an all-success store. -/
theorem sentiment_pass_second_run_witness :
    sentiment_selection_query = spec_incremental_sentiment_query ∧
    (∀ (pm' : String → String → Bool) (r : Record),
      evalQuery pm' r sentiment_selection_query =
        (r.text.isSome && !r.sentiment_label.isSome)) ∧
    add_sentiment_to_docs (fun _ => 1) (fun _ _ => false) (fun _ => true)
        (add_sentiment_to_docs (fun _ => 1) (fun _ _ => false) (fun _ => true)
          [⟨0, some "good vibes", some 0, none, none, none⟩]).store =
      ⟨(add_sentiment_to_docs (fun _ => 1) (fun _ _ => false) (fun _ => true)
          [⟨0, some "good vibes", some 0, none, none, none⟩]).store, 0, 0⟩ :=
  sentiment_pass_second_run_updates_nothing (fun _ => 1) (fun _ _ => false)
    (fun _ _ => false) (fun _ => true) (fun _ => true)
    [⟨0, some "good vibes", some 0, none, none, none⟩] (fun _ => rfl)

/-! ### `Enriche._extract_weapons_from_highlight` (processor.py lines 87-98) -/

/-- Case-insensitively strip `tag` (given lowercase) from the front of a
character list; `re.IGNORECASE` makes the regex delimiters match in any
case. -/
def stripTagCI : List Char → List Char → Option (List Char)
  | [], cs => some cs
  | _ :: _, [] => none
  | t :: ts, c :: cs => if c.toLower = t then stripTagCI ts cs else none

/-- Scan for the closing `</weapon>` delimiter, collecting the enclosed
span: `.*?` is non-greedy, so the span ends at the first closing tag, and
`.` does not cross a newline. -/
def takeUntilClose : List Char → Option (List Char × List Char)
  | [] => none
  | c :: cs =>
      match stripTagCI "</weapon>".data (c :: cs) with
      | some rest => some ([], rest)
      | none =>
          if c = '\n' then none
          else
            match takeUntilClose cs with
            | some (content, rest) => some (c :: content, rest)
            | none => none

/-- Model of `re.findall(r'<weapon>(.*?)</weapon>', fragment, re.IGNORECASE)`:
scan left to right; wherever an opening tag starts a span that reaches a
closing tag on the same line, emit the enclosed span and continue after
the closing tag, otherwise advance one character.  The fuel is the scan
length, which structural recursion needs; it never runs out because every
recursive call drops at least one character. -/
def findTagsAux : Nat → List Char → List String
  | 0, _ => []
  | _ + 1, [] => []
  | fuel + 1, c :: cs =>
      match stripTagCI "<weapon>".data (c :: cs) with
      | some rest =>
          match takeUntilClose rest with
          | some (content, rest') => String.mk content :: findTagsAux fuel rest'
          | none => findTagsAux fuel cs
      | none => findTagsAux fuel cs

/-- The delimiter-enclosed spans of one highlight fragment. -/
def findall_weapon_spans (s : String) : List String :=
  findTagsAux s.data.length s.data

/-- One accumulation step of the extraction: normalize the span by
`strip().lower()` and insert the vocabulary entry it exactly equals, if
any (`next((w for w in self.weapons_list if w == match_clean), None)`). -/
def weaponStep (weapons_list : List String) (found : Finset String)
    (m : String) : Finset String :=
  match weapons_list.find? (fun w => w = pyLower (pyStrip m)) with
  | some matched_weapon => insert matched_weapon found
  | none => found

/-- Model of `Enriche._extract_weapons_from_highlight`: fold every span of every
fragment through `weaponStep`, starting from the empty set — so the result
holds each matched vocabulary entry at most once. -/
def extract_weapons_from_highlight (weapons_list : List String)
    (fragments : List String) : Finset String :=
  fragments.foldl
    (fun found fragment =>
      (findall_weapon_spans fragment).foldl (weaponStep weapons_list) found)
    ∅

theorem mem_foldl_weaponStep (weapons_list : List String) (ms : List String)
    (found : Finset String) (w : String) :
    w ∈ ms.foldl (weaponStep weapons_list) found ↔
      w ∈ found ∨ ∃ m ∈ ms,
        weapons_list.find? (fun x => x = pyLower (pyStrip m)) = some w := by
  induction ms generalizing found with
  | nil => simp
  | cons m ms ih =>
      rw [List.foldl_cons, ih]
      cases hf : weapons_list.find? (fun x => x = pyLower (pyStrip m)) with
      | none =>
          simp only [weaponStep, hf]
          constructor
          · rintro (hw | ⟨m', hm', hfind⟩)
            · exact Or.inl hw
            · exact Or.inr ⟨m', List.mem_cons_of_mem m hm', hfind⟩
          · rintro (hw | ⟨m', hm', hfind⟩)
            · exact Or.inl hw
            · rcases List.mem_cons.mp hm' with rfl | hm2
              · rw [hf] at hfind; exact absurd hfind (by simp)
              · exact Or.inr ⟨m', hm2, hfind⟩
      | some v =>
          simp only [weaponStep, hf, Finset.mem_insert]
          constructor
          · rintro ((rfl | hw) | ⟨m', hm', hfind⟩)
            · exact Or.inr ⟨m, List.mem_cons_self m ms, hf⟩
            · exact Or.inl hw
            · exact Or.inr ⟨m', List.mem_cons_of_mem m hm', hfind⟩
          · rintro (hw | ⟨m', hm', hfind⟩)
            · exact Or.inl (Or.inr hw)
            · rcases List.mem_cons.mp hm' with rfl | hm2
              · rw [hf] at hfind
                exact Or.inl (Or.inl (Option.some.inj hfind).symm)
              · exact Or.inr ⟨m', hm2, hfind⟩

theorem mem_extract_weapons (weapons_list fragments : List String) (w : String) :
    w ∈ extract_weapons_from_highlight weapons_list fragments ↔
      ∃ frag ∈ fragments, ∃ m ∈ findall_weapon_spans frag,
        weapons_list.find? (fun x => x = pyLower (pyStrip m)) = some w := by
  rw [extract_weapons_from_highlight]
  have main : ∀ (fr : List String) (found : Finset String),
      w ∈ fr.foldl (fun found fragment =>
          (findall_weapon_spans fragment).foldl (weaponStep weapons_list) found)
        found ↔
      w ∈ found ∨ ∃ frag ∈ fr, ∃ m ∈ findall_weapon_spans frag,
        weapons_list.find? (fun x => x = pyLower (pyStrip m)) = some w := by
    intro fr
    induction fr with
    | nil => simp
    | cons frag fr ih =>
        intro found
        rw [List.foldl_cons, ih, mem_foldl_weaponStep]
        constructor
        · rintro ((hw | ⟨m, hm, hfind⟩) | ⟨frag', hfrag', hrest⟩)
          · exact Or.inl hw
          · exact Or.inr ⟨frag, List.mem_cons_self frag fr, m, hm, hfind⟩
          · exact Or.inr ⟨frag', List.mem_cons_of_mem frag hfrag', hrest⟩
        · rintro (hw | ⟨frag', hfrag', m, hm, hfind⟩)
          · exact Or.inl (Or.inl hw)
          · rcases List.mem_cons.mp hfrag' with rfl | hfrag2
            · exact Or.inl (Or.inr ⟨m, hm, hfind⟩)
            · exact Or.inr ⟨frag', hfrag2, m, hm, hfind⟩
  rw [main fragments ∅]
  simp

theorem find?_eq_literal_iff (weapons_list : List String) (c w : String) :
    weapons_list.find? (fun x => x = c) = some w ↔ w ∈ weapons_list ∧ w = c := by
  constructor
  · intro h
    have hmem := List.mem_of_find?_eq_some h
    have hp := List.find?_some h
    simp only [decide_eq_true_eq] at hp
    exact ⟨hmem, hp⟩
  · rintro ⟨hmem, rfl⟩
    have hsome : (weapons_list.find? (fun x => x = w)).isSome := by
      rw [List.find?_isSome]
      exact ⟨w, hmem, by simp⟩
    obtain ⟨w', hw'⟩ := Option.isSome_iff_exists.mp hsome
    have hp := List.find?_some hw'
    simp only [decide_eq_true_eq] at hp
    rw [hw', hp]

/-! ### Theorems: weapon extraction (C5) -/

set_option maxRecDepth 8000 in
/-- C5: a vocabulary entry is extracted iff some fragment has a
delimiter-enclosed span whose trim-plus-lowercase normalization equals it
exactly — nothing outside the delimiters, no fuzzy or partial matching —
and the result is a set, holding each kept term at most once: the
fragment `"He had a <weapon>KNIFE</weapon> and a <weapon>Knife</weapon>"`
with vocabulary `["knife"]` yields exactly `{"knife"}`. -/
theorem weapon_extraction_exact_and_dedup :
    (∀ (weapons_list fragments : List String) (w : String),
      w ∈ extract_weapons_from_highlight weapons_list fragments ↔
        (w ∈ weapons_list ∧ ∃ frag ∈ fragments,
          ∃ m ∈ findall_weapon_spans frag, pyLower (pyStrip m) = w)) ∧
    extract_weapons_from_highlight ["knife"]
      ["He had a <weapon>KNIFE</weapon> and a <weapon>Knife</weapon>"] =
      {"knife"} := by
  constructor
  · intro weapons_list fragments w
    rw [mem_extract_weapons]
    constructor
    · rintro ⟨frag, hfrag, m, hm, hfind⟩
      obtain ⟨hmem, heq⟩ := (find?_eq_literal_iff weapons_list _ w).mp hfind
      exact ⟨hmem, frag, hfrag, m, hm, heq.symm⟩
    · rintro ⟨hmem, frag, hfrag, m, hm, heq⟩
      exact ⟨frag, hfrag, m, hm,
        (find?_eq_literal_iff weapons_list _ w).mpr ⟨hmem, heq.symm⟩⟩
  · decide

/-! ### `Enriche.add_weapons_to_docs` (processor.py lines 100-167) -/

/-- A store operation issued by the engine, for effect tracing. -/
inductive StoreOp where
  | scan (q : Query)
  | bulk (operations : Nat)
  | refresh
  | deleteByQuery (q : Query)

/-- One bulk `update` action of the weapons pass: the target id and the
partial document `{"weapons_found": ..}`. -/
structure WeapUpdate where
  id : Nat
  weapons : Finset String
deriving DecidableEq

/-- Field-level merge of one weapons partial update into a record. -/
def weapApply (u : WeapUpdate) (r : Record) : Record :=
  { r with weapons_found := some u.weapons }

/-- One store-side bulk step: an operation touches exactly the record with
its target id. -/
def weapStep (r : Record) (u : WeapUpdate) : Record :=
  if u.id = r.id then weapApply u r else r

/-- Store-side effect of the bulk submission of the weapons pass. -/
def applyWeapUpdates (ok : WeapUpdate → Bool) (upds : List WeapUpdate)
    (store : Store) : Store :=
  store.map (fun r => (upds.filter ok).foldl weapStep r)

/-- The `docs_to_update` list of the weapons pass: scan the phrase-match
selection, extract from each hit's highlight fragments (`hl` is the
store's highlighter: the fragments it returns for a record's text, `[]`
when the hit carries no highlight), and keep only hits with a non-empty
extraction. -/
def weapons_docs_to_update (hl : String → List String)
    (pm : String → String → Bool) (weapons_list : List String)
    (store : Store) : List WeapUpdate :=
  (store.filter
      (fun r => evalQuery pm r (weapons_selection_query weapons_list))).filterMap
    (fun r =>
      let weapons :=
        extract_weapons_from_highlight weapons_list (hl (r.text.getD ""))
      if weapons = ∅ then none else some ⟨r.id, weapons⟩)

/-- Result of the weapons pass: final store, number of documents found
with weapons, bulk success count, bulk failure count, and the store
operations issued. -/
structure WeaponsOut where
  store : Store
  found : Nat
  success : Nat
  failedCount : Nat
  ops : List StoreOp

/-- Model of `Enriche.add_weapons_to_docs`: with an empty vocabulary, log and
return before contacting the store; otherwise scan the phrase-match
selection with highlights, collect non-empty extractions, return after the
scan when nothing is to update, else bulk-update in chunks of 500 with
`raise_on_error=False` and refresh the index. -/
def add_weapons_to_docs (hl : String → List String)
    (pm : String → String → Bool) (weapons_list : List String)
    (ok : WeapUpdate → Bool) (store : Store) : WeaponsOut :=
  if weapons_list = [] then ⟨store, 0, 0, 0, []⟩
  else
    let docs_to_update := weapons_docs_to_update hl pm weapons_list store
    if docs_to_update = [] then
      ⟨store, 0, 0, 0, [.scan (weapons_selection_query weapons_list)]⟩
    else
      let res := helpers_bulk ok 500 docs_to_update
      ⟨applyWeapUpdates ok docs_to_update store, docs_to_update.length,
        res.1, res.2.length,
        [.scan (weapons_selection_query weapons_list),
         .bulk docs_to_update.length, .refresh]⟩

/-! ### Theorems: empty-vocabulary no-op (C8) -/

/-- C8: with an empty vocabulary the weapons pass issues no store
operation at all (in particular no selection call), writes nothing,
leaves every record unchanged, and reports zero matches without error. -/
theorem weapons_pass_empty_vocab_noop (hl : String → List String)
    (pm : String → String → Bool) (ok : WeapUpdate → Bool) (store : Store) :
    add_weapons_to_docs hl pm [] ok store = ⟨store, 0, 0, 0, []⟩ := rfl

/-- The rightmost bulk operation in the list targeting `r`'s id (later
operations overwrite earlier ones at the store). -/
def lastMatch (r : Record) : List WeapUpdate → Option WeapUpdate
  | [] => none
  | u :: ops =>
      match lastMatch r ops with
      | some v => some v
      | none => if u.id = r.id then some u else none

theorem lastMatch_congr_id (r1 r2 : Record) (h : r1.id = r2.id)
    (ops : List WeapUpdate) : lastMatch r1 ops = lastMatch r2 ops := by
  induction ops with
  | nil => rfl
  | cons u ops ih => simp only [lastMatch, ih, h]

theorem foldl_weapStep_eq_lastMatch (ops : List WeapUpdate) (r : Record) :
    ops.foldl weapStep r =
      (match lastMatch r ops with
       | some u => weapApply u r
       | none => r) := by
  induction ops generalizing r with
  | nil => rfl
  | cons u ops ih =>
      rw [List.foldl_cons]
      by_cases hu : u.id = r.id
      · have hstep : weapStep r u = weapApply u r := if_pos hu
        rw [hstep, ih (weapApply u r),
          lastMatch_congr_id (weapApply u r) r rfl ops]
        simp only [lastMatch]
        cases lastMatch r ops with
        | some v => rfl
        | none => simp [hu]
      · have hstep : weapStep r u = r := if_neg hu
        rw [hstep, ih r]
        simp only [lastMatch]
        cases lastMatch r ops with
        | some v => rfl
        | none => simp [hu]

theorem foldl_weapStep_id_text (ops : List WeapUpdate) (r : Record) :
    (ops.foldl weapStep r).id = r.id ∧ (ops.foldl weapStep r).text = r.text := by
  rw [foldl_weapStep_eq_lastMatch]
  cases lastMatch r ops with
  | some u => exact ⟨rfl, rfl⟩
  | none => exact ⟨rfl, rfl⟩

theorem foldl_weapStep_idem (ops : List WeapUpdate) (r : Record) :
    ops.foldl weapStep (ops.foldl weapStep r) = ops.foldl weapStep r := by
  have hid : (ops.foldl weapStep r).id = r.id := (foldl_weapStep_id_text ops r).1
  rw [foldl_weapStep_eq_lastMatch ops (ops.foldl weapStep r),
      lastMatch_congr_id _ r hid ops, foldl_weapStep_eq_lastMatch ops r]
  cases lastMatch r ops with
  | some u => rfl
  | none => rfl

theorem evalCountOf_phrase_text (pm : String → String → Bool)
    (wl : List String) (r1 r2 : Record) (h : r1.text = r2.text) :
    evalCountOf pm r1 (wl.map (fun w => Query.match_phrase "text" w)) =
      evalCountOf pm r2 (wl.map (fun w => Query.match_phrase "text" w)) := by
  induction wl with
  | nil => rfl
  | cons w wl ih =>
      simp only [List.map_cons, evalCountOf]
      have h1 : evalQuery pm r1 (.match_phrase "text" w) =
          (match r1.text with | some t => pm t w | none => false) := rfl
      have h2 : evalQuery pm r2 (.match_phrase "text" w) =
          (match r2.text with | some t => pm t w | none => false) := rfl
      rw [h1, h2, h, ih]

theorem evalQuery_weapons_selection_text (pm : String → String → Bool)
    (wl : List String) (r1 r2 : Record) (h : r1.text = r2.text) :
    evalQuery pm r1 (weapons_selection_query wl) =
      evalQuery pm r2 (weapons_selection_query wl) := by
  simp only [weapons_selection_query, evalQuery, evalAllOf, evalNoneOf]
  rw [evalCountOf_phrase_text pm wl r1 r2 h]

theorem weapons_docs_of_applied (hl : String → List String)
    (pm : String → String → Bool) (wl : List String) (ok : WeapUpdate → Bool)
    (docs : List WeapUpdate) (store : Store) :
    weapons_docs_to_update hl pm wl (applyWeapUpdates ok docs store) =
      weapons_docs_to_update hl pm wl store := by
  unfold weapons_docs_to_update applyWeapUpdates
  induction store with
  | nil => rfl
  | cons r store ih =>
      simp only [List.map_cons, List.filter_cons]
      have hpres := foldl_weapStep_id_text (docs.filter ok) r
      have hsel : evalQuery pm ((docs.filter ok).foldl weapStep r)
          (weapons_selection_query wl) =
          evalQuery pm r (weapons_selection_query wl) :=
        evalQuery_weapons_selection_text pm wl _ r hpres.2
      rw [hsel]
      cases hq : evalQuery pm r (weapons_selection_query wl) with
      | false => simpa using ih
      | true =>
          simp only [if_true, List.filterMap_cons]
          simp only [hpres.1, hpres.2]
          rw [ih]

/-! ### Theorems: weapons pass re-run (C10) -/

/-- C10: the weapons selection ignores `weapons_found` entirely (first
conjunct: its evaluation is invariant under rewriting that field), so a
second run over the unchanged corpus re-selects the same records, extracts
the same term sets, performs the same number of updates as the first run
(non-zero whenever the first run updated anything), and returns the store
— and the whole pass result — unchanged from the first run. -/
theorem weapons_pass_rerun_idempotent (hl : String → List String)
    (pm : String → String → Bool) (wl : List String)
    (ok ok2 : WeapUpdate → Bool) (store : Store)
    (h : ∀ u, ok u = true) (h2 : ∀ u, ok2 u = true) :
    (∀ (pm' : String → String → Bool) (r : Record) (wf : Option (Finset String)),
      evalQuery pm' { r with weapons_found := wf } (weapons_selection_query wl) =
        evalQuery pm' r (weapons_selection_query wl)) ∧
    add_weapons_to_docs hl pm wl ok2 (add_weapons_to_docs hl pm wl ok store).store =
      add_weapons_to_docs hl pm wl ok store := by
  refine ⟨fun pm' r wf => evalQuery_weapons_selection_text pm' wl _ r rfl, ?_⟩
  by_cases hwl : wl = []
  · subst hwl; rfl
  · by_cases hd : weapons_docs_to_update hl pm wl store = []
    · have hrun1 : add_weapons_to_docs hl pm wl ok store =
          ⟨store, 0, 0, 0, [.scan (weapons_selection_query wl)]⟩ := by
        rw [add_weapons_to_docs, if_neg hwl]
        simp [hd]
      rw [hrun1, add_weapons_to_docs, if_neg hwl]
      simp [hd]
    · have hfok : (weapons_docs_to_update hl pm wl store).filter ok =
          weapons_docs_to_update hl pm wl store :=
        List.filter_eq_self.mpr fun u _ => h u
      have hfok2 : (weapons_docs_to_update hl pm wl store).filter ok2 =
          weapons_docs_to_update hl pm wl store :=
        List.filter_eq_self.mpr fun u _ => h2 u
      have hnok : (weapons_docs_to_update hl pm wl store).filter
          (fun a => !ok a) = [] := by
        rw [List.filter_eq_nil_iff]
        intro a _
        simp [h a]
      have hnok2 : (weapons_docs_to_update hl pm wl store).filter
          (fun a => !ok2 a) = [] := by
        rw [List.filter_eq_nil_iff]
        intro a _
        simp [h2 a]
      have hrun1 : add_weapons_to_docs hl pm wl ok store =
          ⟨applyWeapUpdates ok (weapons_docs_to_update hl pm wl store) store,
            (weapons_docs_to_update hl pm wl store).length,
            (weapons_docs_to_update hl pm wl store).length, 0,
            [.scan (weapons_selection_query wl),
             .bulk (weapons_docs_to_update hl pm wl store).length, .refresh]⟩ := by
        rw [add_weapons_to_docs, if_neg hwl]
        simp [hd, helpers_bulk_eq, hfok, hnok]
      have hdocs2 : weapons_docs_to_update hl pm wl
          (applyWeapUpdates ok (weapons_docs_to_update hl pm wl store) store) =
          weapons_docs_to_update hl pm wl store :=
        weapons_docs_of_applied hl pm wl ok (weapons_docs_to_update hl pm wl store) store
      have hs2 : applyWeapUpdates ok2 (weapons_docs_to_update hl pm wl store)
          (applyWeapUpdates ok (weapons_docs_to_update hl pm wl store) store) =
          applyWeapUpdates ok (weapons_docs_to_update hl pm wl store) store := by
        unfold applyWeapUpdates
        rw [hfok, hfok2, List.map_map]
        exact List.map_congr_left fun r _ =>
          foldl_weapStep_idem (weapons_docs_to_update hl pm wl store) r
      rw [hrun1]
      rw [add_weapons_to_docs, if_neg hwl]
      simp only [hdocs2, hd, if_neg, helpers_bulk_eq, hfok2, hnok2]
      simp [hs2, hdocs2, hd]

set_option maxRecDepth 8000 in
/-- Witness for `weapons_pass_rerun_idempotent` on a concrete one-record
corpus whose text matches the vocabulary, with all-success stores; the
extra final conjunct checks the first run did perform a non-zero update. -/
theorem weapons_pass_rerun_idempotent_witness :
    ((∀ (pm' : String → String → Bool) (r : Record) (wf : Option (Finset String)),
      evalQuery pm' { r with weapons_found := wf }
          (weapons_selection_query ["knife"]) =
        evalQuery pm' r (weapons_selection_query ["knife"])) ∧
    add_weapons_to_docs (fun _ => ["a <weapon>knife</weapon>"])
        (fun _ _ => true) ["knife"] (fun _ => true)
        (add_weapons_to_docs (fun _ => ["a <weapon>knife</weapon>"])
          (fun _ _ => true) ["knife"] (fun _ => true)
          [⟨0, some "a knife", some 1, none, none, none⟩]).store =
      add_weapons_to_docs (fun _ => ["a <weapon>knife</weapon>"])
        (fun _ _ => true) ["knife"] (fun _ => true)
        [⟨0, some "a knife", some 1, none, none, none⟩]) ∧
    (add_weapons_to_docs (fun _ => ["a <weapon>knife</weapon>"])
        (fun _ _ => true) ["knife"] (fun _ => true)
        [⟨0, some "a knife", some 1, none, none, none⟩]).success = 1 :=
  ⟨weapons_pass_rerun_idempotent (fun _ => ["a <weapon>knife</weapon>"])
      (fun _ _ => true) ["knife"] (fun _ => true) (fun _ => true)
      [⟨0, some "a knife", some 1, none, none, none⟩]
      (fun _ => rfl) (fun _ => rfl),
    by decide⟩

/-! ### `DAL.delete_by_query` and `Enriche.clean_non_antisemitic`
(processor.py lines 283-329, src/Elastic_service/DAL.py) -/

/-- Modelled from the spec: `delete_by_query(predicate) -> deleted_count`
of the store access layer.  The `DAL` class in `src/Elastic_service/DAL.py`
forwards to its `Crud` implementation (`Elastic_service.crud`), which is
not under src/; §6 gives the operation's contract and §7
(RetentionFailure) its failure behaviour: delete every record matching the
predicate and return the count; on store failure (`fails`) delete nothing
and return 0 with a diagnostic, never raising. -/
def DAL_delete_by_query (pm : String → String → Bool) (fails : Bool)
    (q : Query) (store : Store) : Store × Nat × Option String :=
  if fails then (store, 0, some "delete_by_query failed")
  else
    (store.filter (fun r => !evalQuery pm r q),
      (store.filter (fun r => evalQuery pm r q)).length, none)

/-- Result of a `clean_non_antisemitic` call: the store afterwards, the
Python return value (the function body has no `return` statement, so a
call evaluates to `None`), the deleted count it logs, the failure
diagnostic if any, and the store operations issued. -/
structure CleanOut where
  store : Store
  ret : Option Nat
  logged : Nat
  diag : Option String
  ops : List StoreOp

/-- Model of `Enriche.clean_non_antisemitic`: build `full_query` (the unused draft
`query` local aside) and issue one `delete_by_query` with it, logging the
deleted count. -/
def clean_non_antisemitic (pm : String → String → Bool) (fails : Bool)
    (store : Store) : CleanOut :=
  let res := DAL_delete_by_query pm fails retention_full_query store
  { store := res.1, ret := none, logged := res.2.1, diag := res.2.2,
    ops := [.deleteByQuery retention_full_query] }

/-! ### Theorems: retention operation (C1) -/

/-- C1 counterexample: on a store where the retention predicate deletes
one record and the store call succeeds, the operation logs 1 deleted but
the call returns `None`, not the number of deleted records, so "returns
the number of deleted records" is false as stated. -/
theorem clean_non_antisemitic_returns_none :
    (clean_non_antisemitic (fun _ _ => true) false
      [⟨0, some "fine", some 0, some 0, some "neutral", none⟩]).logged = 1 ∧
    (clean_non_antisemitic (fun _ _ => true) false
      [⟨0, some "fine", some 0, some 0, some "neutral", none⟩]).ret = none ∧
    (clean_non_antisemitic (fun _ _ => true) false
        [⟨0, some "fine", some 0, some 0, some "neutral", none⟩]).ret ≠
      some (clean_non_antisemitic (fun _ _ => true) false
        [⟨0, some "fine", some 0, some 0, some "neutral", none⟩]).logged := by
  refine ⟨by decide, rfl, by decide⟩

/-- C1 (amended): for every corpus state the retention operation issues
exactly one delete-by-query, with the fixed predicate, and never raises:
on success it deletes exactly the matching records and logs their number;
on store failure it deletes nothing and logs zero with a diagnostic.  The
call itself returns `None` — the count is logged, not returned. -/
theorem clean_non_antisemitic_contract (pm : String → String → Bool)
    (fails : Bool) (store : Store) :
    (clean_non_antisemitic pm fails store).ops =
      [.deleteByQuery retention_full_query] ∧
    (clean_non_antisemitic pm fails store).ret = none ∧
    (clean_non_antisemitic pm fails store).logged =
      (if fails then 0
       else (store.filter (fun r => evalQuery pm r retention_full_query)).length) ∧
    (clean_non_antisemitic pm fails store).store =
      (if fails then store
       else store.filter (fun r => !evalQuery pm r retention_full_query)) ∧
    (clean_non_antisemitic pm fails store).diag =
      (if fails then some "delete_by_query failed" else none) := by
  unfold clean_non_antisemitic DAL_delete_by_query
  by_cases hf : fails <;> simp [hf]
